import Mathlib

/-!
Shallow embedding of `bin/import-images/import.py` (image import utility).

The script copies JPEG images from a source directory into a destination
collection under sequential `LOP25-nnnn.jpeg` names, optionally stamps an
EXIF Artist tag, derives a thumbnail per image, and appends the new
filenames to a TOML index.

Modelling conventions:
- Directory listings are explicit lists; a possibly-absent directory is an
  `Option` of a listing.
- Machine integers do not occur (Python ints are unbounded), so `Nat` is
  exact.
- External I/O failure points (PIL decode/encode, piexif, file writes) are
  driven by explicit Boolean oracles; fallible steps return `Option` or
  `Except`.
- Python's `\d` is modelled as ASCII digits; `print` output is modelled as
  a list of structured events recording which message was emitted and
  which item name it carried.
-/

namespace ImportImages

/-- One entry of a directory listing: a name plus whether it is a regular
file (`file_path.is_file()` in the scan). -/
structure DirEntry where
  name : String
  isFile : Bool
deriving DecidableEq, Repr

/-- Numeric value of an ASCII digit character, as used when parsing the
group captured by `(\d{4})` with Python's `int`. -/
def digitVal (c : Char) : Option Nat :=
  if c.isDigit then some (c.toNat - 48) else none

/-- Match of the compiled pattern `LOP25-(\d{4})\.jpeg` via `re.match`:
anchored at the start of the name only, so trailing characters after
`.jpeg` are permitted.  Returns the parsed 4-digit group on success. -/
def matchSerial (s : String) : Option Nat :=
  match s.toList with
  | 'L' :: 'O' :: 'P' :: '2' :: '5' :: '-' :: a :: b :: c :: d :: '.' :: 'j' :: 'p' :: 'e' :: 'g' :: _ =>
      match digitVal a, digitVal b, digitVal c, digitVal d with
      | some x, some y, some z, some w => some (1000 * x + 100 * y + 10 * z + w)
      | _, _, _, _ => none
  | _ => none

/-- `find_highest_serial_number(dest_dir)`: 0 when the directory does not
exist, otherwise the running maximum of the parsed serial over the regular
files whose name matches the pattern. -/
def find_highest_serial_number (dir : Option (List DirEntry)) : Nat :=
  match dir with
  | none => 0
  | some entries =>
      entries.foldl
        (fun maxNum e =>
          if e.isFile then
            match matchSerial e.name with
            | some n => max maxNum n
            | none => maxNum
          else maxNum) 0

/-- Exact-pattern matcher following the spec's words for the Identifier
Allocator: prefix + exactly 4 digits + fixed extension, with nothing after
the extension.  Used only to compare the spec's contract against the
source's `re.match`-based scan. -/
def specMatchSerial (s : String) : Option Nat :=
  match s.toList with
  | ['L', 'O', 'P', '2', '5', '-', a, b, c, d, '.', 'j', 'p', 'e', 'g'] =>
      match digitVal a, digitVal b, digitVal c, digitVal d with
      | some x, some y, some z, some w => some (1000 * x + 100 * y + 10 * z + w)
      | _, _, _, _ => none
  | _ => none

/-- Allocator as the spec words it: maximum over names matching the exact
pattern (nothing after the extension).  Comparison definition only. -/
def specFindHighest (dir : Option (List DirEntry)) : Nat :=
  match dir with
  | none => 0
  | some entries =>
      entries.foldl
        (fun maxNum e =>
          if e.isFile then
            match specMatchSerial e.name with
            | some n => max maxNum n
            | none => maxNum
          else maxNum) 0

/-- Extension test realising the four glob patterns
`*.jpeg`, `*.jpg`, `*.JPEG`, `*.JPG` of `get_image_files`: a name
matches when it ends with one of the four extensions (`*` matches any
leading characters). -/
def hasImageExt (s : String) : Bool :=
  (".jpeg".toList.isSuffixOf s.toList) || (".jpg".toList.isSuffixOf s.toList) ||
  (".JPEG".toList.isSuffixOf s.toList) || (".JPG".toList.isSuffixOf s.toList)

section Sorting

variable {α : Type}

/-- Stable insertion of one element into a sorted list: the element goes
after every existing element that compares less-or-equal, matching the
stability of Python's `sorted`. -/
def insertSorted (le : α → α → Bool) (a : α) : List α → List α
  | [] => [a]
  | b :: bs => if le b a then b :: insertSorted le a bs else a :: b :: bs

/-- Stable sort modelling Python's built-in `sorted` (observable
behaviour: a stable sort by the given order). -/
def sortedBy (le : α → α → Bool) (xs : List α) : List α :=
  xs.foldl (fun acc x => insertSorted le x acc) []

end Sorting

/-- Image pixel modes relevant to the script (`image.mode` values the
code inspects, plus untouched ones). -/
inductive PixMode where
  | RGB
  | RGBA
  | P
  | L
  | CMYK
deriving DecidableEq, Repr

/-- Abstract content of one image file: pixels, dimensions, mode, the
EXIF Artist tag, and the rest of the EXIF block abstracted to a number. -/
structure ImageFile where
  pixels : Nat
  width : Nat
  height : Nat
  mode : PixMode
  exifArtist : Option String
  exifRest : Nat
deriving DecidableEq, Repr

/-- Oracle for the fallible external steps inside `update_exif_artist`:
`Image.open`, `piexif.load`, `piexif.dump`, `image.save`. -/
structure ExifOracle where
  openOk : Bool
  loadOk : Bool
  dumpOk : Bool
  saveOk : Bool
deriving DecidableEq, Repr

/-- Oracle for the fallible external steps inside `create_thumbnail`:
`Image.open` (decode) and `image.save` (encode). -/
structure ThumbOracle where
  openOk : Bool
  saveOk : Bool
deriving DecidableEq, Repr

/-- One candidate file in the source directory: its name, its content and
the failure oracles for the per-item side effects applied to it. -/
structure RunItem where
  name : String
  file : ImageFile
  exifO : ExifOracle
  thumbO : ThumbOracle
deriving DecidableEq, Repr

/-- Name order used by `sorted(image_files)` (lexicographic on the
filename, all paths being in the same directory). -/
def nameLe (a b : RunItem) : Bool := decide (a.name ≤ b.name)

/-- `get_image_files(source_dir)`: the four glob patterns collect every
name with one of the accepted extensions; `sorted` then orders them. -/
def get_image_files (items : List RunItem) : List RunItem :=
  sortedBy nameLe (items.filter (fun it => hasImageExt it.name))

/-- Structured stand-ins for the script's `print` messages. -/
inductive Event where
  | warnExif (item : String)
  | warnThumb (item : String)
  | warnTomlLoad
  | infoTomlWritten
  | errTomlWrite
  | imported (src dst : String)
  | noFiles
  | summary (count : Nat)
deriving DecidableEq, Repr

/-- `update_exif_artist(image_file, photographer)`: inside the `try`
block the image is decoded, its EXIF block parsed, the Artist tag set,
and the file re-encoded in place; any exception is caught and reported as
a warning naming the file, leaving the file as it was. -/
def update_exif_artist (f : ImageFile) (fname photographer : String)
    (o : ExifOracle) : ImageFile × List Event :=
  if o.openOk && o.loadOk && o.dumpOk && o.saveOk then
    ({ f with exifArtist := some photographer }, [])
  else
    (f, [Event.warnExif fname])

/-- Modelled from the spec: the bounded resize performed by the external
PIL call `image.thumbnail((max_width, max_height), LANCZOS)`, whose code
is not part of this repository.  Per the spec it resizes "so that neither
dimension exceeds fixed bounds … preserves aspect ratio (no cropping, no
upscaling beyond original size — only downscaling to fit bounds)"; an
image already within bounds is left untouched.  The pinned dimension is
exact and the other is the floored aspect-correct value, clamped to at
least 1 pixel. -/
def thumbSize (w h maxW maxH : Nat) : Nat × Nat :=
  if w ≤ maxW ∧ h ≤ maxH then (w, h)
  else if maxH * w ≤ maxW * h then (max 1 (maxH * w / h), maxH)
  else (maxW, max 1 (maxW * h / w))

/-- A produced thumbnail file as saved by
`image.save(thumb_file, 'JPEG', quality=85, optimize=True)`. -/
structure ThumbFile where
  name : String
  width : Nat
  height : Nat
  mode : PixMode
  format : String
  quality : Nat
  optimize : Bool
deriving DecidableEq, Repr

/-- `create_thumbnail(source_file, thumb_dir, thumb_name, 400, 300)`:
decode, convert `RGBA`/`P` sources to `RGB`, bounded resize, save as JPEG
at quality 85 with optimization.  Any exception is caught and reported as
a warning naming the source file; no thumbnail file is produced then. -/
def create_thumbnail (src : ImageFile) (srcName thumbName : String)
    (maxW maxH : Nat) (o : ThumbOracle) : Option ThumbFile × List Event :=
  if o.openOk then
    let mode := if src.mode = PixMode.RGBA ∨ src.mode = PixMode.P then PixMode.RGB else src.mode
    let dims := thumbSize src.width src.height maxW maxH
    if o.saveOk then
      (some { name := thumbName, width := dims.1, height := dims.2, mode := mode,
              format := "JPEG", quality := 85, optimize := true }, [])
    else (none, [Event.warnThumb srcName])
  else (none, [Event.warnThumb srcName])

/-- TOML values as far as the index file is concerned. -/
inductive Toml where
  | str (s : String)
  | int (n : Int)
  | bool (b : Bool)
  | arr (xs : List Toml)
  | table (kvs : List (String × Toml))

/-- A loaded TOML document: Python dict of top-level keys, in insertion
order, keys unique. -/
abbrev TomlDoc := List (String × Toml)

/-- Assignment `data[k] = v` on a Python dict: replace the value of an
existing key in place, else append the new key at the end. -/
def setKey (doc : TomlDoc) (k : String) (v : Toml) : TomlDoc :=
  match doc with
  | [] => [(k, v)]
  | (k0, v0) :: rest => if k0 = k then (k, v) :: rest else (k0, v0) :: setKey rest k v

/-- The TOML entry built for one imported filename:
`{'file': image_file}`. -/
def tomlEntry (f : String) : Toml := Toml.table [("file", Toml.str f)]

/-- On-disk state of the index file before a run: absent, present but
unparsable by `toml.load`, or a loaded document. -/
inductive IndexState where
  | absent
  | unloadable
  | loaded (doc : TomlDoc)

/-- Index configuration for a run: the file's current state and whether
the final `open(index_file, 'w')`/`toml.dump` write succeeds. -/
structure IndexCfg where
  state : IndexState
  writeOk : Bool

/-- Uncaught Python exceptions the script can raise. -/
inductive PyError where
  | attributeError
deriving DecidableEq, Repr

/-- Result of `update_toml_index`: the merged in-memory document, what
was actually persisted (`none` when the write failed), and the messages
printed. -/
structure UpdateResult where
  doc : TomlDoc
  written : Option TomlDoc
  events : List Event

/-- One iteration of the `for image_file in image_files` loop of
`update_toml_index`: `data['images'].append({'file': image_file})`,
raising `AttributeError` when the value under `images` is not a list. -/
def appendImages (acc : Except PyError TomlDoc) (f : String) : Except PyError TomlDoc :=
  acc.bind (fun d =>
    match d.lookup ("images") with
    | some (Toml.arr xs) => Except.ok (setKey d ("images") (Toml.arr (xs ++ [tomlEntry f])))
    | _ => Except.error PyError.attributeError)

/-- `update_toml_index(index_file, image_files)`: load the existing
document (absent → `{}`; unloadable → warning and `{}`), ensure key
`images` exists (created as an empty list only when the key is absent),
then append `{'file': f}` per filename via `data['images'].append(...)` —
an `AttributeError` escapes uncaught if `images` holds a non-list value —
and finally write the document back, catching and reporting a write
failure. -/
def update_toml_index (cfg : IndexCfg) (files : List String) :
    Except PyError UpdateResult :=
  let loadRes : TomlDoc × List Event :=
    match cfg.state with
    | IndexState.absent => ([], [])
    | IndexState.unloadable => ([], [Event.warnTomlLoad])
    | IndexState.loaded d => (d, [])
  let data0 := if (loadRes.1.lookup ("images")).isSome then loadRes.1
               else setKey loadRes.1 ("images") (Toml.arr [])
  (files.foldl appendImages (Except.ok data0)).map (fun d =>
    if cfg.writeOk then
      { doc := d, written := some d, events := loadRes.2 ++ [Event.infoTomlWritten] }
    else
      { doc := d, written := none, events := loadRes.2 ++ [Event.errTomlWrite] })

/-- ASCII digit character for a value below 10. -/
def digitChar (n : Nat) : Char := Char.ofNat (48 + n)

/-- Python's `f"{n:04d}"`: the decimal representation left-padded with
zeros to a minimum width of four (values of five or more digits are
printed in full). -/
def pad4 (n : Nat) : String :=
  if n < 10000 then
    String.mk [digitChar (n / 1000), digitChar (n / 100 % 10),
               digitChar (n / 10 % 10), digitChar (n % 10)]
  else Nat.repr n

/-- The destination filename `f"LOP25-{current_num:04d}.jpeg"`. -/
def newName (n : Nat) : String := "LOP25-" ++ pad4 n ++ ".jpeg"

/-- Accumulated effects of the per-item loop of `main`: files created in
the images directory (name and content, one per item, in order), the
per-item thumbnail outcome (`none` when `create_thumbnail` failed), the
`imported_files` list, the serial number used for each item, and the
printed messages. -/
structure LoopAcc where
  images : List (String × ImageFile)
  thumbs : List (Option ThumbFile)
  imported : List String
  serials : List Nat
  events : List Event
deriving Repr

/-- Effects of one iteration of the import loop: copy the source file to
`LOP25-nnnn.jpeg` (`shutil.copy2`), optionally stamp the EXIF Artist tag
on the copy, always attempt a thumbnail from the source file, record the
new name in `imported_files`. -/
def processItem (photographer : Option String) (n : Nat) (item : RunItem) :
    (String × ImageFile) × Option ThumbFile × List Event :=
  let dname := newName n
  let copied := item.file
  let stamped : ImageFile × List Event :=
    match photographer with
    | some p => update_exif_artist copied dname p item.exifO
    | none => (copied, [])
  let thumb := create_thumbnail item.file item.name dname 400 300 item.thumbO
  ((dname, stamped.1), thumb.1,
    stamped.2 ++ thumb.2 ++ [Event.imported item.name dname])

/-- The `for source_file in image_files` loop of `main`, starting from
`current_num = n` and incrementing by one per item. -/
def admitLoop (photographer : Option String) (n : Nat) :
    List RunItem → LoopAcc
  | [] => { images := [], thumbs := [], imported := [], serials := [], events := [] }
  | item :: rest =>
      let r := processItem photographer n item
      let acc := admitLoop photographer (n + 1) rest
      { images := r.1 :: acc.images,
        thumbs := r.2.1 :: acc.thumbs,
        imported := r.1.1 :: acc.imported,
        serials := n :: acc.serials,
        events := r.2.2 ++ acc.events }

/-- Observable outcome of one run of `main` past argument validation and
directory creation: the completion status returned, the files created,
the `imported_files` list, the serials assigned, the in-memory and
persisted index documents, and the messages printed. -/
structure MainResult where
  exit : Nat
  images : List (String × ImageFile)
  thumbs : List (Option ThumbFile)
  imported : List String
  serials : List Nat
  indexDoc : Option TomlDoc
  indexWritten : Option TomlDoc
  events : List Event

/-- `main` from the allocator scan onward (lines 186–224): scan the
images directory, enumerate and sort the source files (returning 0 at
once when none match), run the import loop, then update the index file
only when one was configured, and report the count.  An uncaught
exception from the index update propagates as an error. -/
def mainRun (destImages : List DirEntry) (src : List RunItem)
    (photographer : Option String) (index : Option IndexCfg) :
    Except PyError MainResult :=
  let highest := find_highest_serial_number (some destImages)
  let files := get_image_files src
  if files.isEmpty then
    Except.ok { exit := 0, images := [], thumbs := [], imported := [], serials := [],
                indexDoc := none, indexWritten := none, events := [Event.noFiles] }
  else
    let r := admitLoop photographer (highest + 1) files
    match index with
    | none =>
        Except.ok { exit := 0, images := r.images, thumbs := r.thumbs,
                    imported := r.imported, serials := r.serials,
                    indexDoc := none, indexWritten := none,
                    events := r.events ++ [Event.summary r.imported.length] }
    | some cfg =>
        (update_toml_index cfg r.imported).map (fun u =>
          { exit := 0, images := r.images, thumbs := r.thumbs,
            imported := r.imported, serials := r.serials,
            indexDoc := some u.doc, indexWritten := u.written,
            events := r.events ++ u.events ++ [Event.summary r.imported.length] })

/-- Listing of the destination images directory after a run: the previous
entries plus one regular file per copied image. -/
def runDir (dest : List DirEntry) (r : MainResult) : List DirEntry :=
  dest ++ r.images.map (fun kv => { name := kv.1, isFile := true })

/-- One step of the allocator's running maximum (the loop body of
`find_highest_serial_number`). -/
def fhStep (maxNum : Nat) (e : DirEntry) : Nat :=
  if e.isFile then
    match matchSerial e.name with
    | some n => max maxNum n
    | none => maxNum
  else maxNum

/-- The index states on which `update_toml_index` does not raise: the key
`images`, when the document loads and the key is present, holds a list.
A non-list value makes `data['images'].append` raise `AttributeError`. -/
def imagesOk (st : IndexState) : Prop :=
  match st with
  | IndexState.loaded d =>
      match d.lookup ("images") with
      | none => True
      | some (Toml.arr _) => True
      | some _ => False
  | _ => True

/-- The pre-existing list under key `images` of an index state (empty
when the file is absent, unloadable, or lacks the key). -/
def imagesList (st : IndexState) : List Toml :=
  match st with
  | IndexState.loaded d =>
      match d.lookup ("images") with
      | some (Toml.arr xs) => xs
      | _ => []
  | _ => []

/-- A sample 800×600 RGB image used to instantiate theorems. -/
def sampleImg : ImageFile :=
  { pixels := 7, width := 800, height := 600, mode := PixMode.RGB,
    exifArtist := none, exifRest := 3 }

/-- Oracle with every external EXIF step succeeding. -/
def exifAllOk : ExifOracle := { openOk := true, loadOk := true, dumpOk := true, saveOk := true }

/-- Oracle whose `piexif.load` step fails. -/
def exifLoadFail : ExifOracle := { openOk := true, loadOk := false, dumpOk := true, saveOk := true }

/-- Oracle with both thumbnail steps succeeding. -/
def thumbAllOk : ThumbOracle := { openOk := true, saveOk := true }

/-- Oracle whose thumbnail decode step fails. -/
def thumbOpenFail : ThumbOracle := { openOk := false, saveOk := true }

/-- A sample source file with all side effects succeeding. -/
def itemA : RunItem := { name := "a.jpg", file := sampleImg, exifO := exifAllOk, thumbO := thumbAllOk }

/-- A second sample source file with all side effects succeeding. -/
def itemB : RunItem := { name := "b.jpeg", file := sampleImg, exifO := exifAllOk, thumbO := thumbAllOk }

/-- A sample source file whose EXIF stamping and thumbnail generation
both fail. -/
def itemBad : RunItem :=
  { name := "bad.jpg", file := sampleImg, exifO := exifLoadFail, thumbO := thumbOpenFail }

/-- A sample file in the source directory that matches none of the four
glob patterns. -/
def itemTxt : RunItem :=
  { name := "notes.txt", file := sampleImg, exifO := exifAllOk, thumbO := thumbAllOk }

/-- A sample 800×600 image with an alpha channel. -/
def sampleRGBA : ImageFile :=
  { pixels := 9, width := 800, height := 600, mode := PixMode.RGBA,
    exifArtist := none, exifRest := 0 }

/-- Lookup in the document an index state loads to (`none` for an absent
or unloadable file, which both load to the empty document). -/
def loadedLookup (st : IndexState) (k : String) : Option Toml :=
  match st with
  | IndexState.loaded d => d.lookup k
  | _ => none

/-- The warning printed by the load step of `update_toml_index`. -/
def loadEvents (st : IndexState) : List Event :=
  match st with
  | IndexState.unloadable => [Event.warnTomlLoad]
  | _ => []

/-! ### Allocator lemmas -/

theorem find_highest_eq_foldl (es : List DirEntry) :
    find_highest_serial_number (some es) = es.foldl fhStep 0 := rfl

theorem foldl_fhStep_init (es : List DirEntry) :
    ∀ m : Nat, es.foldl fhStep m = max m (es.foldl fhStep 0) := by
  induction es with
  | nil => intro m; simp
  | cons e es ih =>
      intro m
      have hstep : ∀ k, fhStep k e = max k (fhStep 0 e) := by
        intro k
        unfold fhStep
        by_cases hf : e.isFile <;> simp [hf] <;> cases matchSerial e.name <;> simp
      rw [List.foldl_cons, List.foldl_cons, ih (fhStep m e), ih (fhStep 0 e), hstep m]
      omega

theorem foldl_fhStep_attained (es : List DirEntry) :
    es.foldl fhStep 0 = 0 ∨
      ∃ e ∈ es, e.isFile = true ∧ matchSerial e.name = some (es.foldl fhStep 0) := by
  induction es with
  | nil => exact Or.inl rfl
  | cons e es ih =>
      rw [List.foldl_cons, foldl_fhStep_init]
      rcases Nat.le_total (fhStep 0 e) (es.foldl fhStep 0) with hle | hle
      · rw [Nat.max_eq_right hle]
        rcases ih with h0 | ⟨e2, he2, hf2, hm2⟩
        · rw [h0]; exact Or.inl rfl
        · exact Or.inr ⟨e2, List.mem_cons_of_mem e he2, hf2, hm2⟩
      · rw [Nat.max_eq_left hle]
        unfold fhStep
        by_cases hf : e.isFile
        · simp only [hf, if_true]
          cases hm : matchSerial e.name with
          | none => exact Or.inl rfl
          | some n => exact Or.inr ⟨e, List.mem_cons_self e es, hf, by simp [hm]⟩
        · simp [hf]

theorem foldl_fhStep_ub (es : List DirEntry) (e : DirEntry) (he : e ∈ es)
    (hf : e.isFile = true) (k : Nat) (hm : matchSerial e.name = some k) :
    k ≤ es.foldl fhStep 0 := by
  induction es with
  | nil => cases he
  | cons e0 es ih =>
      rw [List.foldl_cons, foldl_fhStep_init]
      rcases List.mem_cons.mp he with rfl | he2
      · have : fhStep 0 e = k := by simp [fhStep, hf, hm]
        omega
      · have := ih he2
        omega

/-- C3: the allocator's scan uses `re.match`, which anchors only at the
start of the filename: a name with trailing characters after `.jpeg`
still counts.  On a directory holding only `LOP25-0099.jpegZ` the code
returns 99 while the claimed exact pattern (prefix + exactly 4 digits +
extension and nothing more) matches nothing, so the claimed value is 0. -/
theorem c3_counterexample :
    find_highest_serial_number (some [{ name := "LOP25-0099.jpegZ", isFile := true }]) = 99 ∧
    specFindHighest (some [{ name := "LOP25-0099.jpegZ", isFile := true }]) = 0 :=
  ⟨rfl, rfl⟩

/-- C3 (amended): the allocator returns 0 on an absent directory, and on
a listing returns the maximum of the parsed 4-digit groups over exactly
the regular files whose name starts with prefix + 4 digits + `.jpeg`
(trailing characters permitted, as `re.match` does not anchor the end),
0 when no name matches; non-matching names are ignored without error and
the scan writes nothing (it is a pure function of the listing). -/
theorem c3_allocator_amended :
    find_highest_serial_number none = 0 ∧
    ∀ es : List DirEntry,
      (find_highest_serial_number (some es) = 0 ∨
        ∃ e ∈ es, e.isFile = true ∧
          matchSerial e.name = some (find_highest_serial_number (some es))) ∧
      (∀ e ∈ es, e.isFile = true → ∀ k,
        matchSerial e.name = some k → k ≤ find_highest_serial_number (some es)) ∧
      ((∀ e ∈ es, e.isFile = true → matchSerial e.name = none) →
        find_highest_serial_number (some es) = 0) := by
  refine ⟨rfl, fun es => ⟨?_, ?_, ?_⟩⟩
  · rw [find_highest_eq_foldl]; exact foldl_fhStep_attained es
  · intro e he hf k hm
    rw [find_highest_eq_foldl]; exact foldl_fhStep_ub es e he hf k hm
  · intro hall
    rw [find_highest_eq_foldl]
    rcases foldl_fhStep_attained es with h0 | ⟨e, he, hf, hm⟩
    · exact h0
    · rw [hall e he hf] at hm; cases hm

/-- Witness for the amended C3 at a concrete listing: a matching name
bounds the result from below and a junk name is ignored. -/
theorem c3_allocator_amended_witness :
    42 ≤ find_highest_serial_number
      (some [{ name := "LOP25-0042.jpeg", isFile := true },
             { name := "notes.txt", isFile := true }]) :=
  (c3_allocator_amended.2
      [{ name := "LOP25-0042.jpeg", isFile := true },
       { name := "notes.txt", isFile := true }]).2.1
    { name := "LOP25-0042.jpeg", isFile := true } (by simp) rfl 42 (by rfl)

/-! ### Filename template lemmas -/

theorem digitVal_digitChar (d : Nat) (hd : d ≤ 9) : digitVal (digitChar d) = some d := by
  interval_cases d <;> rfl

theorem toList_newName (k : Nat) (hk : k < 10000) :
    (newName k).toList =
      ['L', 'O', 'P', '2', '5', '-', digitChar (k / 1000), digitChar (k / 100 % 10),
       digitChar (k / 10 % 10), digitChar (k % 10), '.', 'j', 'p', 'e', 'g'] := by
  unfold newName pad4
  rw [if_pos hk]
  rfl

theorem matchSerial_newName (k : Nat) (hk : k ≤ 9999) :
    matchSerial (newName k) = some k := by
  have h4 : k < 10000 := by omega
  have hred : matchSerial (newName k) =
      (match digitVal (digitChar (k / 1000)), digitVal (digitChar (k / 100 % 10)),
             digitVal (digitChar (k / 10 % 10)), digitVal (digitChar (k % 10)) with
       | some x, some y, some z, some w => some (1000 * x + 100 * y + 10 * z + w)
       | _, _, _, _ => none) := by
    unfold matchSerial
    rw [toList_newName k h4]
    rfl
  rw [hred, digitVal_digitChar (k / 1000) (by omega), digitVal_digitChar (k / 100 % 10) (by omega),
      digitVal_digitChar (k / 10 % 10) (by omega), digitVal_digitChar (k % 10) (by omega)]
  simp only [Option.some.injEq]
  omega

/-! ### Import loop lemmas -/

theorem admitLoop_serials (p : Option String) (items : List RunItem) :
    ∀ n, (admitLoop p n items).serials = (List.range items.length).map (fun i => n + i) := by
  induction items with
  | nil => intro n; rfl
  | cons item rest ih =>
      intro n
      simp only [admitLoop, ih (n + 1), List.length_cons, List.range_succ_eq_map,
        List.map_cons, List.map_map, List.cons.injEq]
      refine ⟨by omega, List.map_congr_left ?_⟩
      intro i _
      simp only [Function.comp_apply]
      omega

theorem admitLoop_imported (p : Option String) (items : List RunItem) :
    ∀ n, (admitLoop p n items).imported = (admitLoop p n items).serials.map newName := by
  induction items with
  | nil => intro n; rfl
  | cons item rest ih => intro n; simp [admitLoop, processItem, ih (n + 1)]

theorem admitLoop_images_names (p : Option String) (items : List RunItem) :
    ∀ n, (admitLoop p n items).images.map Prod.fst = (admitLoop p n items).imported := by
  induction items with
  | nil => intro n; rfl
  | cons item rest ih => intro n; simp [admitLoop, processItem, ih (n + 1)]

/-- C1: for every run (destination listing, source listing, optional
photographer, no index configured — the loop does not depend on the index
stage), with S the allocator's value and N the number of enumerated
items, the run succeeds and assigns exactly the serials S+1, …, S+N in
enumeration order, one per item, the admitted filenames being the fixed
template applied to those serials in the same order. -/
theorem c1_sequential_identifiers (dest : List DirEntry) (src : List RunItem)
    (p : Option String) :
    (mainRun dest src p none).map (fun r => (r.serials, r.imported)) =
      Except.ok
        (((List.range (get_image_files src).length).map
            (fun i => find_highest_serial_number (some dest) + 1 + i)),
         ((List.range (get_image_files src).length).map
            (fun i => newName (find_highest_serial_number (some dest) + 1 + i)))) := by
  unfold mainRun
  by_cases hE : (get_image_files src).isEmpty = true
  · rw [if_pos hE]
    rw [List.isEmpty_iff] at hE
    simp [hE, Except.map]
  · rw [if_neg hE]
    simp only [Except.map]
    rw [admitLoop_serials, admitLoop_imported, admitLoop_serials]
    simp [Function.comp]

/-! ### Cross-run lemmas -/

theorem foldl_fhStep_append (l1 l2 : List DirEntry) :
    (l1 ++ l2).foldl fhStep 0 = max (l1.foldl fhStep 0) (l2.foldl fhStep 0) := by
  rw [List.foldl_append, foldl_fhStep_init]

theorem foldl_fhStep_newEntries (S : Nat) :
    ∀ N, S + N ≤ 9999 →
      ((List.range N).map (fun i => DirEntry.mk (newName (S + 1 + i)) true)).foldl fhStep 0 =
        if N = 0 then 0 else S + N := by
  intro N
  induction N with
  | zero => intro h; rfl
  | succ n ih =>
      intro h
      rw [List.range_succ, List.map_append, List.foldl_append]
      simp only [List.map_cons, List.map_nil, List.foldl_cons, List.foldl_nil]
      rw [ih (by omega)]
      have hm := matchSerial_newName (S + 1 + n) (by omega)
      have hstep : ∀ m : Nat, fhStep m (DirEntry.mk (newName (S + 1 + n)) true) =
          max m (S + 1 + n) := by
        intro m; simp [fhStep, hm]
      rw [hstep]
      rcases Nat.eq_zero_or_pos n with rfl | hn
      · rw [if_pos rfl, if_neg (by omega)]
        omega
      · rw [if_neg (by omega), if_neg (by omega)]
        omega

theorem mainRun_none_parts (dest : List DirEntry) (src : List RunItem) (p : Option String) :
    ∃ r, mainRun dest src p none = Except.ok r ∧
      r.serials = (List.range (get_image_files src).length).map
        (fun i => find_highest_serial_number (some dest) + 1 + i) ∧
      r.imported = r.serials.map newName ∧
      r.images.map Prod.fst = r.imported := by
  unfold mainRun
  by_cases hE : (get_image_files src).isEmpty = true
  · rw [if_pos hE]
    rw [List.isEmpty_iff] at hE
    exact ⟨_, rfl, by simp [hE], rfl, rfl⟩
  · rw [if_neg hE]
    refine ⟨_, rfl, ?_, ?_, ?_⟩
    · rw [admitLoop_serials]
    · rw [admitLoop_imported]
    · rw [admitLoop_images_names]

/-- C2: the pattern parses exactly four digits, so once a run crosses
identifier 9999 the next scan no longer sees the highest admitted file.
Concretely: with the destination holding `LOP25-9999.jpeg`, a one-item
run admits identifier 10000 (file `LOP25-10000.jpeg`); a second one-item
run scans a maximum of 9999 and admits identifier 10000 again, a
duplicate, and its starting identifier is not the first run's highest
plus one. -/
theorem c2_counterexample :
    (mainRun [{ name := "LOP25-9999.jpeg", isFile := true }] [itemA] none none).map
        (fun r => r.serials) = Except.ok [10000] ∧
    ((mainRun [{ name := "LOP25-9999.jpeg", isFile := true }] [itemA] none none).bind
        (fun r1 => (mainRun (runDir [{ name := "LOP25-9999.jpeg", isFile := true }] r1)
            [itemB] none none).map (fun r => r.serials))) = Except.ok [10000] :=
  ⟨rfl, rfl⟩

/-- C2 (amended): for consecutive runs against the same destination, as
long as the first run's last identifier still fits in four digits
(S + N ≤ 9999, at least one item enumerated), the second run's allocator
value equals the first run's highest admitted identifier — so its
starting identifier is that highest plus one — and no identifier is
admitted by both runs. -/
theorem c2_no_cross_run_collision (dest : List DirEntry) (src1 src2 : List RunItem)
    (p1 p2 : Option String)
    (hN : 1 ≤ (get_image_files src1).length)
    (hbound : find_highest_serial_number (some dest) + (get_image_files src1).length ≤ 9999) :
    ∃ r1 r2,
      mainRun dest src1 p1 none = Except.ok r1 ∧
      mainRun (runDir dest r1) src2 p2 none = Except.ok r2 ∧
      (find_highest_serial_number (some dest) + (get_image_files src1).length) ∈ r1.serials ∧
      (∀ a ∈ r1.serials,
        a ≤ find_highest_serial_number (some dest) + (get_image_files src1).length) ∧
      find_highest_serial_number (some (runDir dest r1)) =
        find_highest_serial_number (some dest) + (get_image_files src1).length ∧
      (∀ a ∈ r1.serials, ∀ b ∈ r2.serials, a ≠ b) := by
  obtain ⟨r1, h1, hs1, hi1, hn1⟩ := mainRun_none_parts dest src1 p1
  obtain ⟨r2, h2, hs2, _, _⟩ := mainRun_none_parts (runDir dest r1) src2 p2
  have hdir : find_highest_serial_number (some (runDir dest r1)) =
      find_highest_serial_number (some dest) + (get_image_files src1).length := by
    have hmapmk : r1.images.map (fun kv => DirEntry.mk kv.1 true) =
        (List.range (get_image_files src1).length).map
          (fun i => DirEntry.mk
            (newName (find_highest_serial_number (some dest) + 1 + i)) true) := by
      have : r1.images.map (fun kv => DirEntry.mk kv.1 true) =
          (r1.images.map Prod.fst).map (fun s => DirEntry.mk s true) := by
        rw [List.map_map]; rfl
      rw [this, hn1, hi1, hs1, List.map_map, List.map_map]
      rfl
    unfold runDir
    rw [find_highest_eq_foldl, foldl_fhStep_append, hmapmk,
      foldl_fhStep_newEntries _ _ hbound, ← find_highest_eq_foldl]
    rw [if_neg (by omega)]
    omega
  refine ⟨r1, r2, h1, h2, ?_, ?_, hdir, ?_⟩
  · rw [hs1]
    refine List.mem_map.mpr ⟨(get_image_files src1).length - 1, ?_, by omega⟩
    rw [List.mem_range]
    omega
  · intro a ha
    rw [hs1] at ha
    obtain ⟨i, hi, rfl⟩ := List.mem_map.mp ha
    rw [List.mem_range] at hi
    omega
  · intro a ha b hb
    rw [hs1] at ha
    obtain ⟨i, hi, rfl⟩ := List.mem_map.mp ha
    rw [List.mem_range] at hi
    rw [hs2, hdir] at hb
    obtain ⟨j, hj, rfl⟩ := List.mem_map.mp hb
    omega

/-- Witness for the amended C2: an empty destination, a one-item first
run and a one-item second run. -/
theorem c2_no_cross_run_collision_witness :
    ∃ r1 r2,
      mainRun [] [itemA] none none = Except.ok r1 ∧
      mainRun (runDir [] r1) [itemB] none none = Except.ok r2 ∧
      (find_highest_serial_number (some []) + (get_image_files [itemA]).length) ∈ r1.serials ∧
      (∀ a ∈ r1.serials,
        a ≤ find_highest_serial_number (some []) + (get_image_files [itemA]).length) ∧
      find_highest_serial_number (some (runDir [] r1)) =
        find_highest_serial_number (some []) + (get_image_files [itemA]).length ∧
      (∀ a ∈ r1.serials, ∀ b ∈ r2.serials, a ≠ b) :=
  c2_no_cross_run_collision [] [itemA] [itemB] none none (by decide) (by decide)

/-! ### Enumerator lemmas -/

theorem insertSorted_perm {α : Type} (le : α → α → Bool) (a : α) (l : List α) :
    (insertSorted le a l).Perm (a :: l) := by
  induction l with
  | nil => exact List.Perm.refl _
  | cons b bs ih =>
      unfold insertSorted
      by_cases h : le b a = true
      · rw [if_pos h]
        exact (ih.cons b).trans (List.Perm.swap a b bs)
      · rw [if_neg h]

theorem sortedBy_perm_aux {α : Type} (le : α → α → Bool) (xs : List α) :
    ∀ acc, (xs.foldl (fun acc x => insertSorted le x acc) acc).Perm (acc ++ xs) := by
  induction xs with
  | nil => intro acc; simp
  | cons x xs ih =>
      intro acc
      rw [List.foldl_cons]
      refine (ih (insertSorted le x acc)).trans ?_
      refine (List.Perm.append_right xs (insertSorted_perm le x acc)).trans ?_
      exact List.perm_middle.symm

theorem sortedBy_perm {α : Type} (le : α → α → Bool) (xs : List α) :
    (sortedBy le xs).Perm xs := by
  simpa using sortedBy_perm_aux le xs []

theorem pairwise_insertSorted {α : Type} (le : α → α → Bool)
    (htot : ∀ a b, le a b = false → le b a = true)
    (htrans : ∀ a b c, le a b = true → le b c = true → le a c = true)
    (a : α) (l : List α) (h : l.Pairwise (fun x y => le x y = true)) :
    (insertSorted le a l).Pairwise (fun x y => le x y = true) := by
  induction l with
  | nil => simp [insertSorted]
  | cons b bs ih =>
      rcases List.pairwise_cons.mp h with ⟨hb, hbs⟩
      unfold insertSorted
      by_cases hba : le b a = true
      · rw [if_pos hba]
        refine List.pairwise_cons.mpr ⟨?_, ih hbs⟩
        intro c hc
        have hmem := (insertSorted_perm le a bs).mem_iff.mp hc
        rcases List.mem_cons.mp hmem with rfl | hcbs
        · exact hba
        · exact hb c hcbs
      · rw [if_neg hba]
        have hab : le a b = true := htot b a (by simpa using hba)
        refine List.pairwise_cons.mpr ⟨?_, h⟩
        intro c hc
        rcases List.mem_cons.mp hc with rfl | hcbs
        · exact hab
        · exact htrans a b c hab (hb c hcbs)

theorem sortedBy_pairwise {α : Type} (le : α → α → Bool)
    (htot : ∀ a b, le a b = false → le b a = true)
    (htrans : ∀ a b c, le a b = true → le b c = true → le a c = true)
    (xs : List α) :
    (sortedBy le xs).Pairwise (fun x y => le x y = true) := by
  suffices h : ∀ acc, acc.Pairwise (fun x y => le x y = true) →
      (xs.foldl (fun acc x => insertSorted le x acc) acc).Pairwise
        (fun x y => le x y = true) from h [] (by simp)
  induction xs with
  | nil => intro acc hacc; simpa using hacc
  | cons x xs ih =>
      intro acc hacc
      rw [List.foldl_cons]
      exact ih (insertSorted le x acc) (pairwise_insertSorted le htot htrans x acc hacc)

theorem nameLe_total (a b : RunItem) : nameLe a b = false → nameLe b a = true := by
  intro h
  simp only [nameLe, decide_eq_false_iff_not] at h
  simpa [nameLe] using le_of_not_le h

theorem nameLe_trans (a b c : RunItem) :
    nameLe a b = true → nameLe b c = true → nameLe a c = true := by
  simp only [nameLe, decide_eq_true_eq]
  exact le_trans

/-- C8: the Source Enumerator returns exactly the items whose name ends
with one of the four accepted extensions (the two case variants of each,
as fixed by the glob patterns), as a permutation-free characterisation:
the result is a permutation of the filtered listing, sorted (pairwise
nondecreasing) in lexicographic name order — a total deterministic order,
so two runs over an unchanged source produce the same list — and the
result is the empty list, not an error, when no item matches. -/
theorem c8_enumerator (items : List RunItem) :
    (get_image_files items).Perm (items.filter (fun it => hasImageExt it.name)) ∧
    (get_image_files items).Pairwise (fun a b => a.name ≤ b.name) ∧
    ((∀ it ∈ items, hasImageExt it.name = false) → get_image_files items = []) := by
  refine ⟨sortedBy_perm _ _, ?_, ?_⟩
  · have hp := sortedBy_pairwise nameLe nameLe_total nameLe_trans
      (items.filter (fun it => hasImageExt it.name))
    exact hp.imp (fun h => by simpa [nameLe] using h)
  · intro hall
    unfold get_image_files
    have : items.filter (fun it => hasImageExt it.name) = [] := by
      rw [List.filter_eq_nil_iff]
      intro it hit
      simp [hall it hit]
    rw [this]
    rfl

/-- Witness for C8: a source listing with no matching name enumerates to
the empty list. -/
theorem c8_enumerator_witness : get_image_files [itemTxt] = [] :=
  (c8_enumerator [itemTxt]).2.2 (by decide)

/-! ### Thumbnail lemmas -/

theorem div_lt_succ_mul (a b : Nat) (hb : 0 < b) : a < (a / b + 1) * b := by
  have hdm := Nat.div_add_mod a b
  have hml : a % b < b := Nat.mod_lt _ hb
  calc a = b * (a / b) + a % b := hdm.symm
  _ < b * (a / b) + b := Nat.add_lt_add_left hml _
  _ = (a / b + 1) * b := by ring

theorem thumbSize_spec (w h : Nat) (hw : 1 ≤ w) (hh : 1 ≤ h) :
    (thumbSize w h 400 300).1 ≤ 400 ∧ (thumbSize w h 400 300).2 ≤ 300 ∧
    (thumbSize w h 400 300).1 ≤ w ∧ (thumbSize w h 400 300).2 ≤ h ∧
    (w ≤ 400 ∧ h ≤ 300 → thumbSize w h 400 300 = (w, h)) ∧
    (h ≤ 300 * w ∧ w ≤ 400 * h →
      (thumbSize w h 400 300).1 * h < ((thumbSize w h 400 300).2 + 1) * w ∧
      (thumbSize w h 400 300).2 * w < ((thumbSize w h 400 300).1 + 1) * h) := by
  unfold thumbSize
  by_cases hin : w ≤ 400 ∧ h ≤ 300
  · rw [if_pos hin]
    refine ⟨hin.1, hin.2, le_refl w, le_refl h, fun _ => rfl, fun hg => ⟨?_, ?_⟩⟩
    · nlinarith [hw, hh]
    · nlinarith [hw, hh]
  · rw [if_neg hin]
    by_cases hbr : 300 * w ≤ 400 * h
    · rw [if_pos hbr]
      have hh300 : 300 < h := by
        by_contra hcon
        push_neg at hcon
        have hw400 : 400 < w := by omega
        omega
      have hd400 : 300 * w / h ≤ 400 := by
        have h1 : 300 * w / h ≤ 400 * h / h := Nat.div_le_div_right hbr
        rwa [Nat.mul_div_cancel 400 (by omega : 0 < h)] at h1
      have hdw : 300 * w / h ≤ w := by
        have hmul : 300 * w ≤ h * w := Nat.mul_le_mul_right w (by omega)
        have h1 : 300 * w / h ≤ h * w / h := Nat.div_le_div_right hmul
        rwa [Nat.mul_div_cancel_left w (by omega : 0 < h)] at h1
      refine ⟨?_, le_refl 300, ?_, by omega, fun hcon => absurd hcon hin, fun hg => ?_⟩
      · simp only [max_le_iff]; omega
      · simp only [max_le_iff]; omega
      · have hpos : 1 ≤ 300 * w / h := by
          rw [Nat.le_div_iff_mul_le (by omega : 0 < h)]
          omega
        rw [max_eq_right hpos]
        constructor
        · calc 300 * w / h * h ≤ 300 * w := Nat.div_mul_le_self _ _
          _ < 301 * w := by omega
        · calc 300 * w < (300 * w / h + 1) * h := div_lt_succ_mul (300 * w) h (by omega)
          _ = (300 * w / h + 1) * h := rfl
    · rw [if_neg hbr]
      push_neg at hbr
      have hw400 : 400 < w := by
        by_contra hcon
        push_neg at hcon
        have hhgt : 300 < h := by omega
        omega
      have hd300 : 400 * h / w ≤ 300 := by
        have h1 : 400 * h / w ≤ 300 * w / w := Nat.div_le_div_right (by omega)
        rwa [Nat.mul_div_cancel 300 (by omega : 0 < w)] at h1
      have hdh : 400 * h / w ≤ h := by
        have hmul : 400 * h ≤ w * h := Nat.mul_le_mul_right h (by omega)
        have h1 : 400 * h / w ≤ w * h / w := Nat.div_le_div_right hmul
        rwa [Nat.mul_div_cancel_left h (by omega : 0 < w)] at h1
      refine ⟨le_refl 400, ?_, by omega, ?_, fun hcon => absurd hcon hin, fun hg => ?_⟩
      · simp only [max_le_iff]; omega
      · simp only [max_le_iff]; omega
      · have hpos : 1 ≤ 400 * h / w := by
          rw [Nat.le_div_iff_mul_le (by omega : 0 < w)]
          omega
        rw [max_eq_right hpos]
        constructor
        · calc 400 * h < (400 * h / w + 1) * w := div_lt_succ_mul (400 * h) w (by omega)
          _ = (400 * h / w + 1) * w := rfl
        · calc 400 * h / w * w ≤ 400 * h := Nat.div_mul_le_self _ _
          _ < 401 * h := by omega

/-- C7: for a decodable source whose encode step also succeeds, the
Derivative Generator produces a thumbnail of width at most 400 and height
at most 300 (the defaults passed by the pipeline), never exceeding the
original dimensions, keeping the dimensions of an image already within
bounds, preserving the aspect ratio up to the floor rounding of the free
dimension (stated for sources whose shape the bounded box can represent,
i.e. h ≤ 300·w and w ≤ 400·h), converting indexed (`P`) or alpha-channel
(`RGBA`) sources to three-channel `RGB` and leaving `RGB` untouched, and
saving under the target name as a JPEG at quality 85 with optimization
on, emitting no warning. -/
theorem c7_thumbnail (src : ImageFile) (srcName thumbName : String) (o : ThumbOracle)
    (ho : o.openOk = true) (hs : o.saveOk = true)
    (hw : 1 ≤ src.width) (hh : 1 ≤ src.height) :
    ∃ t, (create_thumbnail src srcName thumbName 400 300 o).1 = some t ∧
      t.width ≤ 400 ∧ t.height ≤ 300 ∧
      t.width ≤ src.width ∧ t.height ≤ src.height ∧
      (src.width ≤ 400 ∧ src.height ≤ 300 →
        t.width = src.width ∧ t.height = src.height) ∧
      ((src.mode = PixMode.RGBA ∨ src.mode = PixMode.P) → t.mode = PixMode.RGB) ∧
      (src.mode = PixMode.RGB → t.mode = PixMode.RGB) ∧
      (src.height ≤ 300 * src.width ∧ src.width ≤ 400 * src.height →
        t.width * src.height < (t.height + 1) * src.width ∧
        t.height * src.width < (t.width + 1) * src.height) ∧
      t.name = thumbName ∧ t.format = "JPEG" ∧ t.quality = 85 ∧ t.optimize = true ∧
      (create_thumbnail src srcName thumbName 400 300 o).2 = [] := by
  obtain ⟨h1, h2, h3, h4, h5, h6⟩ := thumbSize_spec src.width src.height hw hh
  refine ⟨{ name := thumbName,
            width := (thumbSize src.width src.height 400 300).1,
            height := (thumbSize src.width src.height 400 300).2,
            mode := if src.mode = PixMode.RGBA ∨ src.mode = PixMode.P then PixMode.RGB
                    else src.mode,
            format := "JPEG", quality := 85, optimize := true },
      ?_, h1, h2, h3, h4, ?_, ?_, ?_, h6, rfl, rfl, rfl, rfl, ?_⟩
  · simp [create_thumbnail, ho, hs]
  · intro hcon
    exact ⟨congrArg Prod.fst (h5 hcon), congrArg Prod.snd (h5 hcon)⟩
  · intro hm
    rw [if_pos hm]
  · intro hm
    rw [if_neg (by simp [hm])]
    exact hm
  · simp [create_thumbnail, ho, hs]

/-- Witness for C7: an 800×600 RGBA source with both steps succeeding. -/
theorem c7_thumbnail_witness :
    ∃ t, (create_thumbnail sampleRGBA ("a.jpg") ("LOP25-0001.jpeg")
        400 300 thumbAllOk).1 = some t ∧
      t.width ≤ 400 ∧ t.height ≤ 300 ∧
      t.width ≤ sampleRGBA.width ∧ t.height ≤ sampleRGBA.height ∧
      (sampleRGBA.width ≤ 400 ∧ sampleRGBA.height ≤ 300 →
        t.width = sampleRGBA.width ∧ t.height = sampleRGBA.height) ∧
      ((sampleRGBA.mode = PixMode.RGBA ∨ sampleRGBA.mode = PixMode.P) →
        t.mode = PixMode.RGB) ∧
      (sampleRGBA.mode = PixMode.RGB → t.mode = PixMode.RGB) ∧
      (sampleRGBA.height ≤ 300 * sampleRGBA.width ∧
          sampleRGBA.width ≤ 400 * sampleRGBA.height →
        t.width * sampleRGBA.height < (t.height + 1) * sampleRGBA.width ∧
        t.height * sampleRGBA.width < (t.width + 1) * sampleRGBA.height) ∧
      t.name = "LOP25-0001.jpeg" ∧ t.format = "JPEG" ∧ t.quality = 85 ∧ t.optimize = true ∧
      (create_thumbnail sampleRGBA ("a.jpg") ("LOP25-0001.jpeg")
        400 300 thumbAllOk).2 = [] :=
  c7_thumbnail sampleRGBA ("a.jpg") ("LOP25-0001.jpeg") thumbAllOk rfl rfl
    (by decide) (by decide)


/-! ### Metadata stamper -/

theorem update_exif_artist_fail (f : ImageFile) (fname p : String) (o : ExifOracle)
    (h : ¬(o.openOk = true ∧ o.loadOk = true ∧ o.dumpOk = true ∧ o.saveOk = true)) :
    update_exif_artist f fname p o = (f, [Event.warnExif fname]) := by
  unfold update_exif_artist
  rw [if_neg]
  intro hc
  simp only [Bool.and_eq_true] at hc
  exact h ⟨hc.1.1.1, hc.1.1.2, hc.1.2, hc.2⟩

/-- C9: whenever any of the decode or encode steps of the Metadata
Stamper fails, the exception is caught locally, the only output is a
warning naming the affected file, and the file's content is exactly what
the copy left there — the function's result is the unmodified input. -/
theorem c9_exif_failure_isolated (f : ImageFile) (fname p : String) (o : ExifOracle)
    (h : ¬(o.openOk = true ∧ o.loadOk = true ∧ o.dumpOk = true ∧ o.saveOk = true)) :
    update_exif_artist f fname p o = (f, [Event.warnExif fname]) :=
  update_exif_artist_fail f fname p o h

/-- Witness for C9: a failing `piexif.load` step leaves the sample image
untouched and emits the warning. -/
theorem c9_exif_failure_isolated_witness :
    update_exif_artist sampleImg ("LOP25-0001.jpeg") ("Ada") exifLoadFail =
      (sampleImg, [Event.warnExif ("LOP25-0001.jpeg")]) :=
  c9_exif_failure_isolated sampleImg ("LOP25-0001.jpeg") ("Ada") exifLoadFail
    (by decide)

/-! ### Per-item isolation in the import loop -/

theorem admitLoop_imported_get (p : Option String) (items : List RunItem) (n i : Nat)
    (hi : i < items.length) :
    (admitLoop p n items).imported[i]? = some (newName (n + i)) := by
  rw [admitLoop_imported, admitLoop_serials, List.getElem?_map, List.getElem?_map,
    List.getElem?_range hi]
  rfl

theorem admitLoop_thumbs_get (p : Option String) :
    ∀ (items : List RunItem) (n i : Nat) (item : RunItem), items[i]? = some item →
      (admitLoop p n items).thumbs[i]? =
        some (create_thumbnail item.file item.name (newName (n + i)) 400 300 item.thumbO).1 := by
  intro items
  induction items with
  | nil => intro n i item h; simp at h
  | cons hd tl ih =>
      intro n i item h
      cases i with
      | zero =>
          simp only [List.getElem?_cons_zero, Option.some.injEq] at h
          subst h
          simp [admitLoop, processItem]
      | succ j =>
          simp only [List.getElem?_cons_succ] at h
          have := ih (n + 1) j item h
          simpa [admitLoop, Nat.add_assoc, Nat.add_comm 1 j] using this

theorem admitLoop_images_get (p : Option String) :
    ∀ (items : List RunItem) (n i : Nat) (item : RunItem), items[i]? = some item →
      (admitLoop p n items).images[i]? = some (processItem p (n + i) item).1 := by
  intro items
  induction items with
  | nil => intro n i item h; simp at h
  | cons hd tl ih =>
      intro n i item h
      cases i with
      | zero =>
          simp only [List.getElem?_cons_zero, Option.some.injEq] at h
          subst h
          simp [admitLoop, processItem]
      | succ j =>
          simp only [List.getElem?_cons_succ] at h
          have := ih (n + 1) j item h
          simpa [admitLoop, Nat.add_assoc, Nat.add_comm 1 j] using this

theorem admitLoop_events_mem (p : Option String) :
    ∀ (items : List RunItem) (n i : Nat) (item : RunItem), items[i]? = some item →
      ∀ e ∈ (processItem p (n + i) item).2.2, e ∈ (admitLoop p n items).events := by
  intro items
  induction items with
  | nil => intro n i item h; simp at h
  | cons hd tl ih =>
      intro n i item h e he
      cases i with
      | zero =>
          simp only [List.getElem?_cons_zero, Option.some.injEq] at h
          subst h
          simp only [admitLoop, List.mem_append]
          exact Or.inl (by simpa using he)
      | succ j =>
          simp only [List.getElem?_cons_succ] at h
          have := ih (n + 1) j item h e (by
            simpa [Nat.add_assoc, Nat.add_comm 1 j] using he)
          simp only [admitLoop, List.mem_append]
          exact Or.inr this

theorem processItem_thumb_fail (p : Option String) (n : Nat) (item : RunItem)
    (h : ¬(item.thumbO.openOk = true ∧ item.thumbO.saveOk = true)) :
    (processItem p n item).2.1 = none ∧
      Event.warnThumb item.name ∈ (processItem p n item).2.2 := by
  have hthumb : create_thumbnail item.file item.name (newName n) 400 300 item.thumbO =
      (none, [Event.warnThumb item.name]) := by
    unfold create_thumbnail
    by_cases ho : item.thumbO.openOk = true
    · rw [if_pos ho]
      have hsv : ¬item.thumbO.saveOk = true := fun hs => h ⟨ho, hs⟩
      rw [if_neg hsv]
    · rw [if_neg ho]
  unfold processItem
  simp only [hthumb]
  refine ⟨by trivial, ?_⟩
  cases p <;> simp

theorem processItem_exif_fail (ph : String) (n : Nat) (item : RunItem)
    (h : ¬(item.exifO.openOk = true ∧ item.exifO.loadOk = true ∧
        item.exifO.dumpOk = true ∧ item.exifO.saveOk = true)) :
    (processItem (some ph) n item).1 = (newName n, item.file) ∧
      Event.warnExif (newName n) ∈ (processItem (some ph) n item).2.2 := by
  have hex := update_exif_artist_fail item.file (newName n) ph item.exifO h
  unfold processItem
  simp only [hex]
  exact ⟨by trivial, by simp⟩

/-- C6: in the import loop, a per-item stamping or derivative failure is
caught where it occurs and never aborts the batch.  For any item i of the
enumerated list: its destination name is recorded in `imported_files` at
position i regardless of its oracles; if its thumbnail generation fails,
no derivative file is produced for it and a warning naming the item is
printed; if stamping was requested and fails, the copied file keeps the
source content unchanged and a warning naming the destination file is
printed; and the outputs recorded for position i depend only on the item
at position i, not on any other item of the batch. -/
theorem c6_per_item_isolation (p : Option String) (n : Nat) (items : List RunItem)
    (i : Nat) (item : RunItem) (hit : items[i]? = some item) :
    (admitLoop p n items).imported[i]? = some (newName (n + i)) ∧
    (¬(item.thumbO.openOk = true ∧ item.thumbO.saveOk = true) →
      (admitLoop p n items).thumbs[i]? = some none ∧
      Event.warnThumb item.name ∈ (admitLoop p n items).events) ∧
    (∀ ph, p = some ph →
      ¬(item.exifO.openOk = true ∧ item.exifO.loadOk = true ∧
          item.exifO.dumpOk = true ∧ item.exifO.saveOk = true) →
      (admitLoop p n items).images[i]? = some (newName (n + i), item.file) ∧
      Event.warnExif (newName (n + i)) ∈ (admitLoop p n items).events) ∧
    (∀ items2 : List RunItem, items2[i]? = some item →
      (admitLoop p n items2).images[i]? = (admitLoop p n items).images[i]? ∧
      (admitLoop p n items2).thumbs[i]? = (admitLoop p n items).thumbs[i]? ∧
      (admitLoop p n items2).imported[i]? = (admitLoop p n items).imported[i]?) := by
  have hlen : i < items.length := by
    by_contra hc
    push_neg at hc
    rw [List.getElem?_eq_none hc] at hit
    cases hit
  refine ⟨admitLoop_imported_get p items n i hlen, ?_, ?_, ?_⟩
  · intro hfail
    obtain ⟨ht, hw⟩ := processItem_thumb_fail p (n + i) item hfail
    refine ⟨?_, admitLoop_events_mem p items n i item hit _ hw⟩
    rw [admitLoop_thumbs_get p items n i item hit]
    have : (create_thumbnail item.file item.name (newName (n + i)) 400 300 item.thumbO).1 =
        (processItem p (n + i) item).2.1 := by
      unfold processItem
      rfl
    rw [this, ht]
  · intro ph hp hfail
    subst hp
    obtain ⟨hi1, hw⟩ := processItem_exif_fail ph (n + i) item hfail
    refine ⟨?_, admitLoop_events_mem (some ph) items n i item hit _ hw⟩
    rw [admitLoop_images_get (some ph) items n i item hit, hi1]
  · intro items2 hit2
    have hlen2 : i < items2.length := by
      by_contra hc
      push_neg at hc
      rw [List.getElem?_eq_none hc] at hit2
      cases hit2
    refine ⟨?_, ?_, ?_⟩
    · rw [admitLoop_images_get p items n i item hit,
        admitLoop_images_get p items2 n i item hit2]
    · rw [admitLoop_thumbs_get p items n i item hit,
        admitLoop_thumbs_get p items2 n i item hit2]
    · rw [admitLoop_imported_get p items n i hlen,
        admitLoop_imported_get p items2 n i hlen2]

/-- Witness for C6: a one-item batch whose stamping and thumbnail both
fail still gets admitted at position 0, produces no derivative, keeps the
copied content, and prints both warnings. -/
theorem c6_per_item_isolation_witness :
    (admitLoop (some ("Ada")) 1 [itemBad]).imported[0]? = some (newName 1) ∧
    ((admitLoop (some ("Ada")) 1 [itemBad]).thumbs[0]? = some none ∧
      Event.warnThumb itemBad.name ∈ (admitLoop (some ("Ada")) 1 [itemBad]).events) ∧
    ((admitLoop (some ("Ada")) 1 [itemBad]).images[0]? =
        some (newName 1, itemBad.file) ∧
      Event.warnExif (newName 1) ∈ (admitLoop (some ("Ada")) 1 [itemBad]).events) := by
  obtain ⟨h1, h2, h3, _⟩ :=
    c6_per_item_isolation (some ("Ada")) 1 [itemBad] 0 itemBad rfl
  exact ⟨by simpa using h1, by simpa using h2 (by decide),
    by simpa using h3 ("Ada") rfl (by decide)⟩

/-! ### Index merge lemmas -/

theorem lookup_setKey_self (doc : TomlDoc) (k : String) (v : Toml) :
    (setKey doc k v).lookup k = some v := by
  induction doc with
  | nil => simp [setKey, List.lookup]
  | cons kv rest ih =>
      obtain ⟨k0, v0⟩ := kv
      unfold setKey
      by_cases h : k0 = k
      · subst h
        simp [List.lookup]
      · rw [if_neg h]
        have hne : (k == k0) = false := beq_eq_false_iff_ne.mpr (Ne.symm h)
        simp [List.lookup, hne, ih]

theorem lookup_setKey_other (doc : TomlDoc) (k k2 : String) (v : Toml) (h : k2 ≠ k) :
    (setKey doc k v).lookup k2 = doc.lookup k2 := by
  induction doc with
  | nil =>
      have hne : (k2 == k) = false := beq_eq_false_iff_ne.mpr h
      simp [setKey, List.lookup, hne]
  | cons kv rest ih =>
      obtain ⟨k0, v0⟩ := kv
      unfold setKey
      by_cases hk : k0 = k
      · subst hk
        have hne : (k2 == k0) = false := beq_eq_false_iff_ne.mpr h
        simp [List.lookup, hne]
      · rw [if_neg hk]
        simp [List.lookup, ih]

theorem appendImages_fold (files : List String) :
    ∀ (d : TomlDoc) (xs : List Toml), d.lookup ("images") = some (Toml.arr xs) →
      ∃ d2, files.foldl appendImages (Except.ok d) = Except.ok d2 ∧
        d2.lookup ("images") = some (Toml.arr (xs ++ files.map tomlEntry)) ∧
        ∀ k, k ≠ "images" → d2.lookup k = d.lookup k := by
  induction files with
  | nil =>
      intro d xs h
      exact ⟨d, rfl, by simpa using h, fun k hk => rfl⟩
  | cons f fs ih =>
      intro d xs h
      rw [List.foldl_cons]
      have hstep : appendImages (Except.ok d) f =
          Except.ok (setKey d ("images") (Toml.arr (xs ++ [tomlEntry f]))) := by
        simp [appendImages, Except.bind, h]
      rw [hstep]
      obtain ⟨d2, hfold, hlook, hother⟩ :=
        ih (setKey d ("images") (Toml.arr (xs ++ [tomlEntry f]))) (xs ++ [tomlEntry f])
          (lookup_setKey_self d ("images") _)
      refine ⟨d2, hfold, ?_, ?_⟩
      · rw [hlook]
        simp
      · intro k hk
        rw [hother k hk, lookup_setKey_other d ("images") k _ hk]

theorem update_toml_index_spec (st : IndexState) (wOk : Bool) (files : List String)
    (h : imagesOk st) :
    ∃ u, update_toml_index ⟨st, wOk⟩ files = Except.ok u ∧
      u.doc.lookup ("images") = some (Toml.arr (imagesList st ++ files.map tomlEntry)) ∧
      (∀ k, k ≠ "images" → u.doc.lookup k = loadedLookup st k) ∧
      u.written = (if wOk then some u.doc else none) ∧
      u.events = loadEvents st ++
        (if wOk then [Event.infoTomlWritten] else [Event.errTomlWrite]) := by
  cases st with
  | absent =>
      obtain ⟨d2, hfold, hlook, hother⟩ :=
        appendImages_fold files (setKey ([] : TomlDoc) ("images") (Toml.arr [])) []
          (lookup_setKey_self _ _ _)
      simp only [update_toml_index]
      rw [show ((([] : TomlDoc).lookup ("images")).isSome) = false from rfl]
      simp only [Bool.false_eq_true, if_false, hfold, Except.map]
      have hnone : ∀ k : String, k ≠ "images" →
          (setKey ([] : TomlDoc) ("images") (Toml.arr [])).lookup k = none := by
        intro k hk
        simp [setKey, List.lookup, beq_eq_false_iff_ne.mpr hk]
      cases wOk
      · exact ⟨_, rfl, by simpa using hlook,
          fun k hk => by simp [hother k hk, hnone k hk, loadedLookup], by simp, by simp [loadEvents]⟩
      · exact ⟨_, rfl, by simpa using hlook,
          fun k hk => by simp [hother k hk, hnone k hk, loadedLookup], by simp, by simp [loadEvents]⟩
  | unloadable =>
      obtain ⟨d2, hfold, hlook, hother⟩ :=
        appendImages_fold files (setKey ([] : TomlDoc) ("images") (Toml.arr [])) []
          (lookup_setKey_self _ _ _)
      simp only [update_toml_index]
      rw [show ((([] : TomlDoc).lookup ("images")).isSome) = false from rfl]
      simp only [Bool.false_eq_true, if_false, hfold, Except.map]
      have hnone : ∀ k : String, k ≠ "images" →
          (setKey ([] : TomlDoc) ("images") (Toml.arr [])).lookup k = none := by
        intro k hk
        simp [setKey, List.lookup, beq_eq_false_iff_ne.mpr hk]
      cases wOk
      · exact ⟨_, rfl, by simpa using hlook,
          fun k hk => by simp [hother k hk, hnone k hk, loadedLookup], by simp, by simp [loadEvents]⟩
      · exact ⟨_, rfl, by simpa using hlook,
          fun k hk => by simp [hother k hk, hnone k hk, loadedLookup], by simp, by simp [loadEvents]⟩
  | loaded d =>
      cases hl : d.lookup ("images") with
      | none =>
          obtain ⟨d2, hfold, hlook, hother⟩ :=
            appendImages_fold files (setKey d ("images") (Toml.arr [])) []
              (lookup_setKey_self _ _ _)
          simp only [update_toml_index]
          rw [hl]
          simp only [Option.isSome_none, Bool.false_eq_true, if_false, hfold, Except.map]
          have hothers : ∀ k, k ≠ "images" → d2.lookup k = d.lookup k := by
            intro k hk
            rw [hother k hk, lookup_setKey_other d ("images") k _ hk]
          have himg : imagesList (IndexState.loaded d) = [] := by
            simp [imagesList, hl]
          cases wOk
          · exact ⟨_, rfl, by simp [himg, hlook], fun k hk => hothers k hk,
              by simp, by simp [loadEvents]⟩
          · exact ⟨_, rfl, by simp [himg, hlook], fun k hk => hothers k hk,
              by simp, by simp [loadEvents]⟩
      | some v =>
          cases v with
          | arr xs =>
              obtain ⟨d2, hfold, hlook, hother⟩ := appendImages_fold files d xs hl
              simp only [update_toml_index]
              rw [hl]
              simp only [Option.isSome_some, if_true, hfold, Except.map]
              have himg : imagesList (IndexState.loaded d) = xs := by
                simp [imagesList, hl]
              cases wOk
              · exact ⟨_, rfl, by simp [himg, hlook], fun k hk => hother k hk,
                  by simp, by simp [loadEvents]⟩
              · exact ⟨_, rfl, by simp [himg, hlook], fun k hk => hother k hk,
                  by simp, by simp [loadEvents]⟩
          | str s => simp [imagesOk, hl] at h
          | int n => simp [imagesOk, hl] at h
          | bool b => simp [imagesOk, hl] at h
          | table kvs => simp [imagesOk, hl] at h

/-- C4: the top-level collection created and appended to is `images`, not
`entries`.  Merging one filename into an absent index yields a document
whose `entries` key is absent while `images` holds the new entry. -/
theorem c4_counterexample :
    (update_toml_index { state := IndexState.absent, writeOk := true }
        [("LOP25-0001.jpeg")]).map
      (fun u => (u.doc.lookup ("entries"), u.doc.lookup ("images"))) =
    Except.ok (none, some (Toml.arr [tomlEntry ("LOP25-0001.jpeg")])) := rfl

/-- C4 (amended): for every run with at least one admitted item and a
configured index path whose `images` key (when the document loads and has
one) holds a list, every newly admitted filename is appended to the index
document as an element of the top-level `images` collection (created
empty if absent), each element holding the filename under the key
`file`. -/
theorem c4_index_append (st : IndexState) (wOk : Bool) (files : List String)
    (h : imagesOk st) (hne : files ≠ []) :
    ∃ u, update_toml_index { state := st, writeOk := wOk } files = Except.ok u ∧
      u.doc.lookup ("images") =
        some (Toml.arr (imagesList st ++ files.map (fun f => Toml.table [("file", Toml.str f)]))) := by
  obtain ⟨u, hu, himg, _, _, _⟩ := update_toml_index_spec st wOk files h
  exact ⟨u, hu, himg⟩

/-- Witness for the amended C4: one filename merged into an absent
index. -/
theorem c4_index_append_witness :
    ∃ u, update_toml_index { state := IndexState.absent, writeOk := true }
        [("LOP25-0001.jpeg")] = Except.ok u ∧
      u.doc.lookup ("images") =
        some (Toml.arr ([] ++ [("LOP25-0001.jpeg")].map
          (fun f => Toml.table [("file", Toml.str f)]))) := by
  have h := c4_index_append IndexState.absent true [("LOP25-0001.jpeg")]
    (by simp [imagesOk]) (by simp)
  simpa [imagesList] using h

/-- C5: a loadable document whose `images` key holds a non-list value
makes the merge raise an uncaught `AttributeError` instead of writing a
merged document back. -/
theorem c5_counterexample :
    update_toml_index
        { state := IndexState.loaded [("images", Toml.str ("x"))], writeOk := true }
        [("LOP25-0001.jpeg")] =
      Except.error PyError.attributeError := rfl

/-- C5 (amended): for every loadable existing index document whose
`images` key, if present, holds a list, and every list of newly admitted
filenames, the merge succeeds and the document written back holds, under
`images`, all prior entries intact in their original order followed by
one new entry per admitted filename in admission order, and every other
pre-existing top-level key of the document is preserved unchanged. -/
theorem c5_merge_preserves (doc : TomlDoc) (files : List String)
    (h : imagesOk (IndexState.loaded doc)) :
    ∃ u, update_toml_index { state := IndexState.loaded doc, writeOk := true } files =
        Except.ok u ∧
      u.written = some u.doc ∧
      u.doc.lookup ("images") =
        some (Toml.arr (imagesList (IndexState.loaded doc) ++ files.map tomlEntry)) ∧
      (∀ k, k ≠ "images" → u.doc.lookup k = doc.lookup k) := by
  obtain ⟨u, hu, himg, hoth, hw, _⟩ :=
    update_toml_index_spec (IndexState.loaded doc) true files h
  exact ⟨u, hu, by simpa using hw, himg, fun k hk => hoth k hk⟩

/-- Witness for the amended C5: a document with an unrelated key `title`
and one existing entry receives one appended entry; the unrelated key
survives. -/
theorem c5_merge_preserves_witness :
    ∃ u, update_toml_index
        { state := IndexState.loaded
            [("title", Toml.str ("gallery")),
             ("images", Toml.arr [tomlEntry ("LOP25-0001.jpeg")])],
          writeOk := true }
        [("LOP25-0002.jpeg")] = Except.ok u ∧
      u.written = some u.doc ∧
      u.doc.lookup ("images") =
        some (Toml.arr ([tomlEntry ("LOP25-0001.jpeg")] ++
          [("LOP25-0002.jpeg")].map tomlEntry)) ∧
      u.doc.lookup ("title") = some (Toml.str ("gallery")) := by
  obtain ⟨u, hu, hw, himg, hoth⟩ := c5_merge_preserves
    [("title", Toml.str ("gallery")),
     ("images", Toml.arr [tomlEntry ("LOP25-0001.jpeg")])]
    [("LOP25-0002.jpeg")] (by simp [imagesOk, List.lookup])
  refine ⟨u, hu, hw, by simpa [imagesList, List.lookup] using himg, ?_⟩
  rw [hoth ("title") (by simp)]
  simp [List.lookup]

theorem admitLoop_imported_length (p : Option String) (n : Nat) (items : List RunItem) :
    (admitLoop p n items).imported.length = items.length := by
  rw [admitLoop_imported, admitLoop_serials]
  simp

/-- C10: when every per-item copy succeeds (copies are infallible in a
completed loop) and the final index write fails, the run still returns
completion status 0 and still reports the full admitted count; the write
failure is only reported as a message and the index file keeps its prior
content (nothing is persisted). -/
theorem c10_write_failure_exit_zero (dest : List DirEntry) (src : List RunItem)
    (p : Option String) (st : IndexState) (h : imagesOk st)
    (hne : ¬(get_image_files src).isEmpty = true) :
    ∃ r, mainRun dest src p (some { state := st, writeOk := false }) = Except.ok r ∧
      r.exit = 0 ∧ r.indexWritten = none ∧
      Event.errTomlWrite ∈ r.events ∧
      Event.summary (get_image_files src).length ∈ r.events ∧
      r.imported.length = (get_image_files src).length := by
  obtain ⟨u, hu, _, _, hw, hev⟩ := update_toml_index_spec st false
    ((admitLoop p (find_highest_serial_number (some dest) + 1) (get_image_files src)).imported) h
  unfold mainRun
  rw [if_neg hne]
  simp only [hu, Except.map]
  refine ⟨_, rfl, rfl, by simpa using hw, ?_, ?_, ?_⟩
  · simp [hev]
  · simp [admitLoop_imported_length]
  · simp [admitLoop_imported_length]

/-- Witness for C10: one item, an absent index file, a failing write. -/
theorem c10_write_failure_exit_zero_witness :
    ∃ r, mainRun [] [itemA] none (some { state := IndexState.absent, writeOk := false }) =
        Except.ok r ∧
      r.exit = 0 ∧ r.indexWritten = none ∧
      Event.errTomlWrite ∈ r.events ∧
      Event.summary (get_image_files [itemA]).length ∈ r.events ∧
      r.imported.length = (get_image_files [itemA]).length :=
  c10_write_failure_exit_zero [] [itemA] none IndexState.absent
    (by simp [imagesOk]) (by decide)

end ImportImages
